import Mathlib

/-!
Verification of the dinosaur full-text search engine specification against the
source `indexer.py`.  The script delegates indexing and query evaluation to an
external search library, so the engine itself (tokenizer, index store, query
nodes, executor, scorer) is modelled from the specification; the parts that do
appear in the source — the per-field indexing policy schema, the exact-field
dispatch set of `search`, and the smart-search boost table — are embedded from
the source.
-/

namespace DinoSearch

abbrev DocId := Nat
abbrev FieldName := String

/-- A record is a flat mapping from field name to raw string value,
modelled as an association list (source: one `csv.DictReader` row). -/
abbrev Record := List (FieldName × String)

/-- Per-field indexing mode.  Source: `add_exact_field` uses `StringField`
(single verbatim token), `add_text_field` uses `TextField` (analyzed). -/
inductive FieldPolicy where
  | Exact
  | Analyzed
deriving DecidableEq, Repr

/-- Alphanumeric test used for token boundaries.
Modelled from the spec: the analyzer splits on non-alphanumeric boundaries. -/
def isAlnumChar (c : Char) : Bool :=
  c.isAlpha || c.isDigit

/-- One step of grouping a character stream into maximal alphanumeric runs:
an alphanumeric character extends the current front run, any other character
closes it.
Modelled from the spec: split on non-alphanumeric boundaries. -/
def groupStep (c : Char) (acc : List (List Char)) : List (List Char) :=
  if isAlnumChar c then
    match acc with
    | [] => [[c]]
    | g :: gs => (c :: g) :: gs
  else
    [] :: acc

/-- Group a character list into maximal alphanumeric runs, discarding the
empty runs produced at separators. -/
def tokensOf (l : List Char) : List (List Char) :=
  (l.foldr groupStep []).filter (fun t => !t.isEmpty)

/-- Modelled from the spec: `tokenize(text)` applies lower-case folding,
splits on non-alphanumeric boundaries and discards empty tokens
(the source delegates this to `StandardAnalyzer`). -/
def tokenize (s : String) : List String :=
  (tokensOf (s.data.map Char.toLower)).map (fun cs => String.mk cs)

/-- Strip leading and trailing whitespace from a character list. -/
def trimChars (l : List Char) : List Char :=
  ((l.dropWhile Char.isWhitespace).reverse.dropWhile Char.isWhitespace).reverse

/-- Whitespace trimming (source: Python `str.strip()`). -/
def strTrim (s : String) : String :=
  String.mk (trimChars s.data)

/-- Term frequency of token `tok` in one field value under a policy.
Modelled from the spec: an `Exact` field contributes its trimmed value as a
single indivisible term; an `Analyzed` field contributes each token with its
occurrence count; values empty after trimming are skipped. -/
def termTF : FieldPolicy → String → String → Nat
  | FieldPolicy.Exact, v, tok => if strTrim v ≠ "" ∧ strTrim v = tok then 1 else 0
  | FieldPolicy.Analyzed, v, tok => if strTrim v = "" then 0 else (tokenize v).count tok

/-- Term frequency of the term `t = (field, token)` in one record, under a
schema assigning policies to field names (unknown fields are not indexed,
missing fields are skipped). -/
def docTF (schema : List (FieldName × FieldPolicy)) (rec : Record)
    (t : FieldName × String) : Nat :=
  match schema.lookup t.1, rec.lookup t.1 with
  | some pol, some v => termTF pol v t.2
  | _, _ => 0

/-- All terms one record contributes to a given field's term dictionary. -/
def recFieldTerms (schema : List (FieldName × FieldPolicy)) (rec : Record)
    (f : FieldName) : List String :=
  match schema.lookup f, rec.lookup f with
  | some FieldPolicy.Exact, some v => if strTrim v = "" then [] else [strTrim v]
  | some FieldPolicy.Analyzed, some v => if strTrim v = "" then [] else tokenize v
  | _, _ => []

/-- Stored field values of one record: every schema field present with a
non-empty trimmed value (source: `Field.Store.YES` on the trimmed value). -/
def storedFields (schema : List (FieldName × FieldPolicy)) (rec : Record) :
    Record :=
  schema.filterMap (fun fp =>
    match rec.lookup fp.1 with
    | none => none
    | some v => if strTrim v = "" then none else some (fp.1, strTrim v))

/-- The committed index generation.
Modelled from the spec: terms map to postings sorted by ascending docId,
a stored-values mapping keyed by docId, plus the total document count. -/
structure IndexStore where
  totalDocs : Nat
  stored : List (DocId × Record)
  dict : FieldName → List String
  posts : FieldName × String → List (DocId × Nat)

/-- Modelled from the spec: `build(records, schema)` assigns docIds
sequentially from 0 in input order, emits postings per field policy and
copies stored values (source: the `create_index` loop over TSV rows). -/
def buildIndex (schema : List (FieldName × FieldPolicy)) (recs : List Record) :
    IndexStore :=
  { totalDocs := recs.length
    stored := (List.range recs.length).map
      (fun i => (i, storedFields schema (recs.getD i [])))
    dict := fun f => (recs.flatMap (fun r => recFieldTerms schema r f)).dedup
    posts := fun t => (List.range recs.length).filterMap (fun i =>
      if docTF schema (recs.getD i []) t = 0 then none
      else some (i, docTF schema (recs.getD i []) t)) }

/-- Term frequency of term `t` in document `d`, read from the postings. -/
def tfOf (idx : IndexStore) (t : FieldName × String) (d : DocId) : Nat :=
  ((idx.posts t).lookup d).getD 0

/-- Document frequency of term `t`: number of documents in its posting list. -/
def dfOf (idx : IndexStore) (t : FieldName × String) : Nat :=
  (idx.posts t).length

/-- The source schema: the thirteen fields of `create_index` in order, with
`add_text_field` as `Analyzed` and `add_exact_field` as `Exact`. -/
def srcSchema : List (FieldName × FieldPolicy) :=
  [("name", FieldPolicy.Analyzed),
   ("area", FieldPolicy.Exact),
   ("time_period", FieldPolicy.Exact),
   ("classification", FieldPolicy.Analyzed),
   ("description", FieldPolicy.Analyzed),
   ("length", FieldPolicy.Exact),
   ("weight", FieldPolicy.Exact),
   ("wingspan", FieldPolicy.Exact),
   ("fossil_range_wiki", FieldPolicy.Exact),
   ("description_wiki", FieldPolicy.Analyzed),
   ("discovery_wiki", FieldPolicy.Analyzed),
   ("classification_wiki", FieldPolicy.Analyzed),
   ("source_link", FieldPolicy.Exact)]

/-- The field names `search` treats as un-analyzed term queries
(source line 86). -/
def exactQueryFields : List FieldName :=
  ["area", "time_period", "length", "weight", "wingspan"]

/-- Boolean clause requirement.
Modelled from the spec: `Occur ∈ {MUST, SHOULD, MUST_NOT}`. -/
inductive Occur where
  | MUST
  | SHOULD
  | MUST_NOT
deriving DecidableEq, Repr

/-- Query node tree.
Modelled from the spec: `Term`, `Parsed`, `Wildcard`, `Fuzzy`, `Boolean`
and `MultiField` (fields with boost weights). -/
inductive QueryNode where
  | Term (field : FieldName) (value : String)
  | Parsed (field : FieldName) (text : String)
  | Wildcard (field : FieldName) (pattern : String)
  | Fuzzy (field : FieldName) (value : String) (maxEdit : Nat)
  | Boolean (children : List (QueryNode × Occur))
  | MultiField (fields : List (FieldName × ℝ)) (text : String)

/-- Glob-style match of a pattern (with `*` wildcards, other characters
literal) against a term.  Modelled from the spec: `Wildcard` patterns use a
glob-style match, not a regex. -/
def globMatch : List Char → List Char → Bool
  | [], [] => true
  | [], _ :: _ => false
  | '*' :: ps, [] => globMatch ps []
  | '*' :: ps, c :: cs => globMatch ps (c :: cs) || globMatch ('*' :: ps) cs
  | _ :: _, [] => false
  | p :: ps, c :: cs => p == c && globMatch ps cs
termination_by p l => (p.length, l.length)

def min3 (a b c : Nat) : Nat := min a (min b c)

/-- One inner row step of the dynamic-programming edit-distance table:
given the row two above `pp`, the previous row `pr`, the current character
`ai` of the first word (with its predecessor `aPrev`), walk the second word
producing the entries of the current row from column `j` on, where `left` is
the entry just computed at column `j - 1`. -/
def osaGo (aPrev : Option Char) (ai : Char) (pp pr : List Nat) :
    List Char → Option Char → Nat → Nat → List Nat
  | [], _, _, _ => []
  | bj :: brest, bPrev, j, left =>
    let cost := if ai = bj then 0 else 1
    let base := min3 (pr.getD j 0 + 1) (left + 1) (pr.getD (j - 1) 0 + cost)
    let v :=
      match aPrev, bPrev with
      | some ap, some bp =>
        if ai = bp ∧ ap = bj then min base (pp.getD (j - 2) 0 + 1) else base
      | _, _ => base
    v :: osaGo aPrev ai pp pr brest (some bj) (j + 1) v

/-- Row-by-row driver of the edit-distance table over the first word. -/
def osaRows (b : List Char) :
    List Char → Option Char → List Nat → List Nat → Nat → List Nat
  | [], _, _, pr, _ => pr
  | ai :: arest, aPrev, _pp, pr, i =>
    let row := i :: osaGo aPrev ai _pp pr b none 1 i
    osaRows b arest (some ai) pr row (i + 1)

/-- Modelled from the spec: Damerau-Levenshtein edit distance (insertions,
deletions, substitutions and adjacent transpositions), computed via the
dynamic-programming table (the source delegates this to `FuzzyQuery`). -/
def damerauLevenshtein (s t : String) : Nat :=
  (osaRows t.data s.data none [] (List.range (t.data.length + 1)) 1).getD
    t.data.length 0

/-- Relevance weight of a term.
Modelled from the spec: `idf(t) = log (1 + totalDocs / (1 + docsContaining t))`. -/
noncomputable def idf (totalDocs docsContaining : Nat) : ℝ :=
  Real.log (1 + (totalDocs : ℝ) / (1 + (docsContaining : ℝ)))

/-- Modelled from the spec: per-term score contribution
`tf(t, d) * idf(t)` (the field boost factor is applied by `MultiField`). -/
noncomputable def termScore (idx : IndexStore) (t : FieldName × String)
    (d : DocId) : ℝ :=
  (tfOf idx t d : ℝ) * idf idx.totalDocs (dfOf idx t)

/-- Whether document `d` is in the matching set of a query node.
Modelled from the spec: postings lookups for `Term`/`Parsed` (tokens combined
with OR), term-dictionary scans for `Wildcard`/`Fuzzy`, standard boolean
gating for `Boolean`, OR over per-field `Parsed` matches for `MultiField`;
an empty `text`/`value`/`pattern` matches nothing. -/
def nodeMatches (idx : IndexStore) : QueryNode → DocId → Bool
  | QueryNode.Term f v, d => v != "" && tfOf idx (f, v) d != 0
  | QueryNode.Parsed f text, d =>
    (tokenize text).any (fun tok => tfOf idx (f, tok) d != 0)
  | QueryNode.Wildcard f pat, d =>
    pat != "" && (idx.dict f).any (fun tok =>
      globMatch pat.data tok.data && tfOf idx (f, tok) d != 0)
  | QueryNode.Fuzzy f v k, d =>
    v != "" && (idx.dict f).any (fun tok =>
      decide (damerauLevenshtein v tok ≤ k) && tfOf idx (f, tok) d != 0)
  | QueryNode.Boolean cs, d =>
    (cs.attach.all (fun c => c.1.2 != Occur.MUST || nodeMatches idx c.1.1 d))
    && (cs.attach.all (fun c =>
        c.1.2 != Occur.MUST_NOT || !nodeMatches idx c.1.1 d))
    && ((cs.attach.any (fun c => c.1.2 == Occur.MUST))
        || (cs.attach.any (fun c =>
            c.1.2 == Occur.SHOULD && nodeMatches idx c.1.1 d)))
  | QueryNode.MultiField fbs text, d =>
    fbs.any (fun fb => (tokenize text).any (fun tok =>
      tfOf idx (fb.1, tok) d != 0))
termination_by q _ => sizeOf q
decreasing_by
  all_goals
    obtain ⟨⟨cq, co⟩, hm⟩ := c
    have h := List.sizeOf_lt_of_mem hm
    simp only [QueryNode.Boolean.sizeOf_spec, Prod.mk.sizeOf_spec] at h
    simp only [QueryNode.Boolean.sizeOf_spec]
    omega

/-- Score of document `d` for a query node.
Modelled from the spec: direct per-token scores for `Term`/`Parsed`,
scores of all dictionary terms matching the predicate for
`Wildcard`/`Fuzzy`, sum of contributing (non-`MUST_NOT`, matching) child
scores gated by the boolean matching set for `Boolean`, and boost-weighted
per-field `Parsed` scores summed across fields for `MultiField`. -/
noncomputable def nodeScore (idx : IndexStore) : QueryNode → DocId → ℝ
  | QueryNode.Term f v, d => termScore idx (f, v) d
  | QueryNode.Parsed f text, d =>
    ((tokenize text).map (fun tok => termScore idx (f, tok) d)).sum
  | QueryNode.Wildcard f pat, d =>
    if pat = "" then 0 else
      (((idx.dict f).filter (fun tok => globMatch pat.data tok.data)).map
        (fun tok => termScore idx (f, tok) d)).sum
  | QueryNode.Fuzzy f v k, d =>
    if v = "" then 0 else
      (((idx.dict f).filter (fun tok =>
          decide (damerauLevenshtein v tok ≤ k))).map
        (fun tok => termScore idx (f, tok) d)).sum
  | QueryNode.Boolean cs, d =>
    if nodeMatches idx (QueryNode.Boolean cs) d then
      (cs.attach.map (fun c =>
        if c.1.2 ≠ Occur.MUST_NOT ∧ nodeMatches idx c.1.1 d then
          nodeScore idx c.1.1 d
        else 0)).sum
    else 0
  | QueryNode.MultiField fbs text, d =>
    (fbs.map (fun fb =>
      fb.2 * ((tokenize text).map
        (fun tok => termScore idx (fb.1, tok) d)).sum)).sum
termination_by q _ => sizeOf q
decreasing_by
  all_goals
    obtain ⟨⟨cq, co⟩, hm⟩ := c
    have h := List.sizeOf_lt_of_mem hm
    simp only [QueryNode.Boolean.sizeOf_spec, Prod.mk.sizeOf_spec] at h
    simp only [QueryNode.Boolean.sizeOf_spec]
    omega

/-- Result ordering: descending score, ties broken by ascending docId.
Modelled from the spec: sort by (score desc, docId asc). -/
def resultOrder (a b : DocId × ℝ) : Prop :=
  b.2 < a.2 ∨ (a.2 = b.2 ∧ a.1 ≤ b.1)

noncomputable instance : DecidableRel resultOrder := fun a b =>
  inferInstanceAs (Decidable (b.2 < a.2 ∨ (a.2 = b.2 ∧ a.1 ≤ b.1)))

instance : IsTotal (DocId × ℝ) resultOrder where
  total a b := by
    rcases lt_trichotomy a.2 b.2 with h | h | h
    · exact Or.inr (Or.inl h)
    · rcases Nat.le_total a.1 b.1 with h1 | h1
      · exact Or.inl (Or.inr ⟨h, h1⟩)
      · exact Or.inr (Or.inr ⟨h.symm, h1⟩)
    · exact Or.inl (Or.inl h)

instance : IsTrans (DocId × ℝ) resultOrder where
  trans a b c hab hbc := by
    rcases hab with h1 | ⟨e1, l1⟩
    · rcases hbc with h2 | ⟨e2, _⟩
      · exact Or.inl (lt_trans h2 h1)
      · exact Or.inl (e2 ▸ h1)
    · rcases hbc with h2 | ⟨e2, l2⟩
      · exact Or.inl (e1 ▸ h2)
      · exact Or.inr ⟨e1.trans e2, le_trans l1 l2⟩

/-- Modelled from the spec: `execute(index, query, limit)` evaluates the
query over every document, sorts the matching documents by
(score desc, docId asc) and truncates to `limit`. -/
noncomputable def execute (idx : IndexStore) (q : QueryNode) (limit : Nat) :
    List (DocId × ℝ) :=
  (List.insertionSort resultOrder
    (((List.range idx.totalDocs).filter (fun d => nodeMatches idx q d)).map
      (fun d => (d, nodeScore idx q d)))).take limit

/-- The dispatch performed by `search` (source lines 86-90): the five
`exactQueryFields` get an un-analyzed term query on the verbatim query text,
every other field goes through the analyzing query parser. -/
def searchQuery (field query_text : String) : QueryNode :=
  if field ∈ exactQueryFields then QueryNode.Term field query_text
  else QueryNode.Parsed field query_text

/-! ### Demonstration data -/

/-- The three-record scenario of the specification's testable properties. -/
def demoRecs : List Record :=
  [[("name", "Triceratops")], [("name", "Tyrannosaurus")], [("name", "Stegosaurus")]]

/-- A schema placing field `name` under the `Exact` policy. -/
def schemaExact : List (FieldName × FieldPolicy) := [("name", FieldPolicy.Exact)]

/-- Two records with identical `name` values, hence equal scores. -/
def tieRecs : List Record := [[("name", "Rex")], [("name", "Rex")]]

/-! ### Supporting lemmas -/

lemma idf_pos (n df : Nat) (h : 0 < n) : 0 < idf n df := by
  apply Real.log_pos
  have h1 : (0 : ℝ) < (n : ℝ) := by exact_mod_cast h
  have h2 : (0 : ℝ) < 1 + (df : ℝ) := by positivity
  have h3 := div_pos h1 h2
  linarith

lemma termScore_pos (idx : IndexStore) (t : FieldName × String) (d : DocId)
    (htf : tfOf idx t d ≠ 0) (htot : 0 < idx.totalDocs) :
    0 < termScore idx t d := by
  unfold termScore
  have h1 : (0 : ℝ) < (tfOf idx t d : ℝ) := by
    exact_mod_cast Nat.pos_of_ne_zero htf
  exact mul_pos h1 (idf_pos _ _ htot)

lemma tokenize_empty_str : tokenize "" = [] := rfl

lemma execute_eq_nil (idx : IndexStore) (q : QueryNode) (limit : Nat)
    (h : ∀ d, nodeMatches idx q d = false) : execute idx q limit = [] := by
  unfold execute
  have hf : (List.range idx.totalDocs).filter (fun d => nodeMatches idx q d) = [] := by
    simp [List.filter_eq_nil_iff, h]
  rw [hf]
  simp [List.insertionSort]

/-- CLAIM C3: executing any query node whose text, value or pattern is the
empty string returns the empty result sequence (and the executor is total,
so no error is raised). -/
theorem empty_query_text_returns_nil (idx : IndexStore) (f : FieldName)
    (limit k : Nat) (fbs : List (FieldName × ℝ)) :
    execute idx (QueryNode.Term f "") limit = []
    ∧ execute idx (QueryNode.Parsed f "") limit = []
    ∧ execute idx (QueryNode.Wildcard f "") limit = []
    ∧ execute idx (QueryNode.Fuzzy f "" k) limit = []
    ∧ execute idx (QueryNode.MultiField fbs "") limit = [] := by
  refine ⟨?_, ?_, ?_, ?_, ?_⟩ <;>
    apply execute_eq_nil <;> intro d <;>
    simp [nodeMatches, tokenize_empty_str]

/-- CLAIM C2: query execution returns at most `limit` results, sorted by
descending score with ties broken by ascending docId; in particular, with
`limit = 1` over two equally-scored matching documents it returns the lower
docId. -/
theorem execute_sorted_and_truncated (idx : IndexStore) (q : QueryNode)
    (limit : Nat) :
    (execute idx q limit).length ≤ limit
    ∧ List.Sorted resultOrder (execute idx q limit)
    ∧ (execute (buildIndex srcSchema tieRecs) (QueryNode.Parsed "name" "rex") 1).map
        Prod.fst = [0] := by
  refine ⟨?_, ?_, ?_⟩
  · unfold execute
    simp [List.length_take]
  · unfold execute
    exact (List.sorted_insertionSort resultOrder _).sublist (List.take_sublist _ _)
  · have hsc : nodeScore (buildIndex srcSchema tieRecs) (QueryNode.Parsed "name" "rex") 0
        = nodeScore (buildIndex srcSchema tieRecs) (QueryNode.Parsed "name" "rex") 1 := by
      simp only [nodeScore, termScore]
      have h0 : tfOf (buildIndex srcSchema tieRecs) ("name", "rex") 0 = 1 := by decide
      have h1 : tfOf (buildIndex srcSchema tieRecs) ("name", "rex") 1 = 1 := by decide
      rw [show tokenize "rex" = ["rex"] from rfl]
      simp only [List.map_cons, List.map_nil]
      rw [h0, h1]
    have h : resultOrder
        (0, nodeScore (buildIndex srcSchema tieRecs) (QueryNode.Parsed "name" "rex") 0)
        (1, nodeScore (buildIndex srcSchema tieRecs) (QueryNode.Parsed "name" "rex") 1) :=
      Or.inr ⟨hsc, by norm_num⟩
    have hfilter : (List.range (buildIndex srcSchema tieRecs).totalDocs).filter
        (fun d => nodeMatches (buildIndex srcSchema tieRecs)
          (QueryNode.Parsed "name" "rex") d) = [0, 1] := by
      simp only [nodeMatches]
      decide
    unfold execute
    rw [hfilter]
    simp only [List.map_cons, List.map_nil, List.insertionSort, List.orderedInsert]
    rw [if_pos h]
    simp [List.take]

/-- CLAIM C1: after building the index over the three-record scenario, the
exact query `Term(name, "Triceratops")` under the `Exact` policy, and the
analyzed query `Parsed(name, "triceratops")` under the source's `Analyzed`
policy, each return exactly the Triceratops document, with score
strictly greater than zero. -/
theorem roundtrip_triceratops :
    (∃ s, execute (buildIndex schemaExact demoRecs)
        (QueryNode.Term "name" "Triceratops") 10 = [(0, s)] ∧ 0 < s)
    ∧ (∃ s, execute (buildIndex srcSchema demoRecs)
        (QueryNode.Parsed "name" "triceratops") 10 = [(0, s)] ∧ 0 < s) := by
  constructor
  · refine ⟨nodeScore (buildIndex schemaExact demoRecs)
      (QueryNode.Term "name" "Triceratops") 0, ?_, ?_⟩
    · have hfilter : (List.range (buildIndex schemaExact demoRecs).totalDocs).filter
          (fun d => nodeMatches (buildIndex schemaExact demoRecs)
            (QueryNode.Term "name" "Triceratops") d) = [0] := by
        simp only [nodeMatches]
        decide
      unfold execute
      rw [hfilter]
      simp [List.insertionSort]
    · simp only [nodeScore]
      exact termScore_pos _ _ _ (by decide) (by decide)
  · refine ⟨nodeScore (buildIndex srcSchema demoRecs)
      (QueryNode.Parsed "name" "triceratops") 0, ?_, ?_⟩
    · have hfilter : (List.range (buildIndex srcSchema demoRecs).totalDocs).filter
          (fun d => nodeMatches (buildIndex srcSchema demoRecs)
            (QueryNode.Parsed "name" "triceratops") d) = [0] := by
        simp only [nodeMatches]
        decide
      unfold execute
      rw [hfilter]
      simp [List.insertionSort]
    · simp only [nodeScore]
      rw [show tokenize "triceratops" = ["triceratops"] from rfl]
      simp only [List.map_cons, List.map_nil, List.sum_cons, List.sum_nil, add_zero]
      exact termScore_pos _ _ _ (by decide) (by decide)

lemma char_toNat_ofNat_valid (n : Nat) (h : n.isValidChar) :
    (Char.ofNat n).toNat = n := by
  unfold Char.ofNat
  rw [dif_pos h]
  rfl

lemma toLower_idem (c : Char) : c.toLower.toLower = c.toLower := by
  unfold Char.toLower
  by_cases h : c.toNat ≥ 65 ∧ c.toNat ≤ 90
  · rw [if_pos h]
    have hv : (c.toNat + 32).isValidChar := Or.inl (by omega)
    have ht : (Char.ofNat (c.toNat + 32)).toNat = c.toNat + 32 :=
      char_toNat_ofNat_valid _ hv
    rw [ht, if_neg (by omega)]
  · rw [if_neg h, if_neg h]

lemma mem_foldr_groupStep (l : List Char) :
    ∀ t ∈ l.foldr groupStep [], ∀ c ∈ t, c ∈ l := by
  induction l with
  | nil => intro t ht; simp at ht
  | cons a as ih =>
    intro t ht c hc
    rw [List.foldr_cons] at ht
    cases hfold : as.foldr groupStep [] with
    | nil =>
      rw [hfold] at ht
      unfold groupStep at ht
      by_cases h : isAlnumChar a
      · rw [if_pos h] at ht
        simp only [List.mem_singleton] at ht
        subst ht
        rw [List.mem_singleton] at hc
        exact List.mem_cons.2 (Or.inl hc)
      · rw [if_neg h] at ht
        simp only [List.mem_singleton] at ht
        subst ht
        simp at hc
    | cons g gs =>
      rw [hfold] at ht
      unfold groupStep at ht
      by_cases h : isAlnumChar a
      · rw [if_pos h] at ht
        rcases List.mem_cons.1 ht with h1 | h1
        · subst h1
          rcases List.mem_cons.1 hc with h2 | h2
          · exact List.mem_cons.2 (Or.inl h2)
          · have hg : g ∈ as.foldr groupStep [] := by
              rw [hfold]; exact List.mem_cons_self g gs
            exact List.mem_cons_of_mem a (ih g hg c h2)
        · have hg : t ∈ as.foldr groupStep [] := by
            rw [hfold]; exact List.mem_cons_of_mem g h1
          exact List.mem_cons_of_mem a (ih t hg c hc)
      · rw [if_neg h] at ht
        rcases List.mem_cons.1 ht with h1 | h1
        · subst h1; simp at hc
        · have hg : t ∈ as.foldr groupStep [] := by rw [hfold]; exact h1
          exact List.mem_cons_of_mem a (ih t hg c hc)

lemma mem_tokensOf {t l : List Char} (ht : t ∈ tokensOf l) :
    t ≠ [] ∧ ∀ c ∈ t, c ∈ l := by
  unfold tokensOf at ht
  have h1 := List.mem_filter.1 ht
  refine ⟨?_, mem_foldr_groupStep l t h1.1⟩
  have h2 := h1.2
  simpa [List.isEmpty_iff] using h2

lemma mem_tokenize {tok s : String} (h : tok ∈ tokenize s) :
    tok ≠ "" ∧ ∀ c ∈ tok.data, c ∈ s.data.map Char.toLower := by
  unfold tokenize at h
  obtain ⟨cs, hcs, rfl⟩ := List.mem_map.1 h
  have h2 := mem_tokensOf hcs
  constructor
  · intro he
    apply h2.1
    have h3 := congrArg String.data he
    simpa using h3
  · simpa using h2.2

lemma mem_recFieldTerms_ne_empty {schema : List (FieldName × FieldPolicy)}
    {rec : Record} {f : FieldName} {tok : String}
    (h : tok ∈ recFieldTerms schema rec f) : tok ≠ "" := by
  unfold recFieldTerms at h
  cases hs : schema.lookup f with
  | none => rw [hs] at h; simp at h
  | some pol =>
    cases hr : rec.lookup f with
    | none => rw [hs, hr] at h; cases pol <;> simp at h
    | some v =>
      rw [hs, hr] at h
      cases pol with
      | Exact =>
        by_cases he : strTrim v = ""
        · simp [he] at h
        · simp only [if_neg he, List.mem_singleton] at h
          subst h
          exact he
      | Analyzed =>
        by_cases he : strTrim v = ""
        · simp [he] at h
        · simp only [if_neg he] at h
          exact (mem_tokenize h).1

lemma mem_dict_buildIndex {schema : List (FieldName × FieldPolicy)}
    {recs : List Record} {f : FieldName} {tok : String}
    (h : tok ∈ (buildIndex schema recs).dict f) :
    ∃ r ∈ recs, tok ∈ recFieldTerms schema r f := by
  simp only [buildIndex, List.mem_dedup, List.mem_flatMap] at h
  exact h

lemma stored_map_fst (schema : List (FieldName × FieldPolicy))
    (recs : List Record) :
    ((buildIndex schema recs).stored).map Prod.fst = List.range recs.length := by
  simp only [buildIndex, List.map_map]
  have h : (Prod.fst ∘ fun i => (i, storedFields schema (recs.getD i []))) =
      fun (i : Nat) => i := rfl
  rw [h, List.map_id']

/-- CLAIM C7: every docId appearing in any posting list of a built index also
appears in the stored-values mapping. -/
theorem posting_docIds_are_stored (schema : List (FieldName × FieldPolicy))
    (recs : List Record) (t : FieldName × String) (d : DocId)
    (h : d ∈ ((buildIndex schema recs).posts t).map Prod.fst) :
    d ∈ ((buildIndex schema recs).stored).map Prod.fst := by
  rw [stored_map_fst]
  obtain ⟨p, hp, hfst⟩ := List.mem_map.1 h
  simp only [buildIndex] at hp
  obtain ⟨i, hi, hg⟩ := List.mem_filterMap.1 hp
  by_cases hn : docTF schema (recs.getD i []) t = 0
  · rw [if_pos hn] at hg
    exact absurd hg (by simp)
  · rw [if_neg hn] at hg
    obtain rfl : p = (i, docTF schema (recs.getD i []) t) :=
      (Option.some_inj.1 hg).symm
    subst hfst
    exact hi

/-- Witness for C7 at a concrete built index: docId 0 appears in the posting
list of ("name", "triceratops") and in the stored-values mapping. -/
theorem posting_docIds_are_stored_witness :
    0 ∈ (((buildIndex srcSchema demoRecs).posts ("name", "triceratops")).map
      Prod.fst)
    ∧ 0 ∈ (((buildIndex srcSchema demoRecs).stored).map Prod.fst) :=
  ⟨by decide,
   posting_docIds_are_stored srcSchema demoRecs ("name", "triceratops") 0
     (by decide)⟩

/-- CLAIM C8: values empty after trimming (or missing fields) are skipped and
never produce a term; no zero-length term ever has a positive frequency; the
build still indexes every record (it does not fail on missing/empty fields). -/
theorem no_zero_length_terms (schema : List (FieldName × FieldPolicy))
    (recs : List Record) (rec : Record) (f : FieldName) (tok : String) :
    (tok ∈ (buildIndex schema recs).dict f → tok ≠ "")
    ∧ (strTrim ((rec.lookup f).getD "") = "" →
        recFieldTerms schema rec f = [] ∧ docTF schema rec (f, tok) = 0)
    ∧ docTF schema rec (f, "") = 0
    ∧ (buildIndex schema recs).totalDocs = recs.length := by
  refine ⟨?_, ?_, ?_, rfl⟩
  · intro h
    obtain ⟨r, _, hr⟩ := mem_dict_buildIndex h
    exact mem_recFieldTerms_ne_empty hr
  · intro hv
    cases hr : rec.lookup f with
    | none =>
      constructor
      · unfold recFieldTerms
        rw [hr]
        cases schema.lookup f with
        | none => rfl
        | some pol => cases pol <;> rfl
      · unfold docTF
        rw [hr]
        cases schema.lookup f with
        | none => rfl
        | some pol => rfl
    | some v =>
      rw [hr] at hv
      simp only [Option.getD_some] at hv
      constructor
      · unfold recFieldTerms
        rw [hr]
        cases schema.lookup f with
        | none => rfl
        | some pol => cases pol <;> simp [hv]
      · unfold docTF
        rw [hr]
        cases schema.lookup f with
        | none => rfl
        | some pol =>
          cases pol with
          | Exact => simp [termTF, hv]
          | Analyzed => simp [termTF, hv]
  · unfold docTF
    cases hr : rec.lookup f with
    | none =>
      cases schema.lookup f with
      | none => rfl
      | some pol => rfl
    | some v =>
      cases schema.lookup f with
      | none => rfl
      | some pol =>
        cases pol with
        | Exact =>
          simp only [termTF]
          rw [if_neg]
          rintro ⟨h1, h2⟩
          exact h1 h2
        | Analyzed =>
          simp only [termTF]
          by_cases he : strTrim v = ""
          · rw [if_pos he]
          · rw [if_neg he]
            rw [List.count_eq_zero]
            intro hmem
            exact (mem_tokenize hmem).1 rfl

/-- Witness for C8: a concrete non-empty dictionary term is non-empty, a
whitespace-only field value contributes no terms and no frequency, the empty
token has frequency zero, and the demo build indexes all three records. -/
theorem no_zero_length_terms_witness :
    ("triceratops" ≠ "")
    ∧ (recFieldTerms srcSchema [("name", "   ")] "name" = []
        ∧ docTF srcSchema [("name", "   ")] ("name", "triceratops") = 0)
    ∧ docTF srcSchema [("name", "   ")] ("name", "") = 0
    ∧ (buildIndex srcSchema demoRecs).totalDocs = 3 := by
  have h := no_zero_length_terms srcSchema demoRecs [("name", "   ")] "name"
    "triceratops"
  exact ⟨h.1 (by decide), h.2.1 (by decide), h.2.2.1, h.2.2.2.trans (by decide)⟩

/-- CLAIM C9: building twice from the same record sequence yields identical
postings, dictionaries and stored values, and docIds are assigned
sequentially from 0 in input order (the stored docId keys are exactly
`0, ..., n-1`). -/
theorem build_deterministic (schema : List (FieldName × FieldPolicy))
    (recs recs' : List Record) (t : FieldName × String) (f : FieldName)
    (h : recs = recs') :
    (buildIndex schema recs).posts t = (buildIndex schema recs').posts t
    ∧ (buildIndex schema recs).dict f = (buildIndex schema recs').dict f
    ∧ (buildIndex schema recs).stored = (buildIndex schema recs').stored
    ∧ ((buildIndex schema recs).stored).map Prod.fst = List.range recs.length := by
  subst h
  exact ⟨rfl, rfl, rfl, stored_map_fst schema recs⟩

/-- Witness for C9: rebuilding the demo index is bit-for-bit identical and
its stored docIds are exactly the range 0, 1, 2. -/
theorem build_deterministic_witness :
    (buildIndex srcSchema demoRecs).posts ("name", "triceratops")
      = (buildIndex srcSchema demoRecs).posts ("name", "triceratops")
    ∧ (buildIndex srcSchema demoRecs).dict "name"
      = (buildIndex srcSchema demoRecs).dict "name"
    ∧ (buildIndex srcSchema demoRecs).stored
      = (buildIndex srcSchema demoRecs).stored
    ∧ ((buildIndex srcSchema demoRecs).stored).map Prod.fst = List.range 3 :=
  build_deterministic srcSchema demoRecs demoRecs ("name", "triceratops")
    "name" rfl

/-- CLAIM C10: `search` matches the query value verbatim as a single
un-analyzed term exactly for the five fields of `exactQueryFields`; every
other field — including the exact-indexed `fossil_range_wiki` and
`source_link` — has its query text analyzed (lower-cased and tokenized)
before matching. -/
theorem search_dispatch_on_field (f text : String) (idx : IndexStore)
    (d : DocId) :
    (searchQuery f text = QueryNode.Term f text ↔ f ∈ exactQueryFields)
    ∧ nodeMatches idx (searchQuery f text) d =
        (if f ∈ exactQueryFields
         then (text != "" && tfOf idx (f, text) d != 0)
         else (tokenize text).any (fun tok => tfOf idx (f, tok) d != 0))
    ∧ searchQuery "fossil_range_wiki" text
        = QueryNode.Parsed "fossil_range_wiki" text
    ∧ searchQuery "source_link" text = QueryNode.Parsed "source_link" text
    ∧ srcSchema.lookup "fossil_range_wiki" = some FieldPolicy.Exact
    ∧ srcSchema.lookup "source_link" = some FieldPolicy.Exact := by
  refine ⟨?_, ?_, ?_, ?_, by decide, by decide⟩
  · unfold searchQuery
    by_cases h : f ∈ exactQueryFields
    · simp [h]
    · simp [h]
  · unfold searchQuery
    by_cases h : f ∈ exactQueryFields
    · rw [if_pos h, if_pos h]
      simp [nodeMatches]
    · rw [if_neg h, if_neg h]
      simp [nodeMatches]
  · rw [searchQuery, if_neg (by decide)]
  · rw [searchQuery, if_neg (by decide)]

lemma globMatch_star (l : List Char) : globMatch ['*'] l = true := by
  induction l with
  | nil => simp [globMatch]
  | cons c cs ih => simp [globMatch, ih]

lemma globMatch_tri (l : List Char) :
    globMatch ('t' :: 'r' :: 'i' :: '*' :: []) l = true ↔
      List.isPrefixOf ('t' :: 'r' :: 'i' :: []) l = true := by
  match l with
  | [] => simp [globMatch, List.isPrefixOf]
  | [a] => simp [globMatch, List.isPrefixOf]
  | [a, b] => simp [globMatch, List.isPrefixOf]
  | a :: b :: c :: rest => simp [globMatch, List.isPrefixOf, globMatch_star rest]

lemma map_toLower_self {l : List Char} (h : ∀ c ∈ l, c.toLower = c) :
    l.map Char.toLower = l := by
  induction l with
  | nil => rfl
  | cons a as ih =>
    simp only [List.map_cons]
    rw [h a (List.mem_cons_self a as),
      ih (fun c hc => h c (List.mem_cons_of_mem a hc))]

lemma recFieldTerms_analyzed {schema : List (FieldName × FieldPolicy)}
    {rec : Record} {f v : String}
    (hs : schema.lookup f = some FieldPolicy.Analyzed)
    (hv : rec.lookup f = some v) :
    recFieldTerms schema rec f = if strTrim v = "" then [] else tokenize v := by
  unfold recFieldTerms
  rw [hs, hv]

/-- CLAIM C5: over any index built with the source schema, the wildcard
pattern `tri*` matches an indexed term of field `name` exactly when that term
begins with "tri" case-insensitively (indexed `name` terms are produced by
the lower-casing analyzer, so case-insensitive prefix test and literal glob
match agree). -/
theorem wildcard_tri_matches_prefix_terms (recs : List Record) (tok : String)
    (h : tok ∈ (buildIndex srcSchema recs).dict "name") :
    globMatch "tri*".data tok.data = true ↔
      List.isPrefixOf "tri".data (tok.data.map Char.toLower) = true := by
  obtain ⟨r, _, hr⟩ := mem_dict_buildIndex h
  have hlower : ∀ c ∈ tok.data, c.toLower = c := by
    cases hv : r.lookup "name" with
    | none =>
      unfold recFieldTerms at hr
      rw [hv] at hr
      rw [show srcSchema.lookup "name" = some FieldPolicy.Analyzed from rfl] at hr
      simp at hr
    | some v =>
      rw [@recFieldTerms_analyzed srcSchema r "name" v (by decide) hv] at hr
      by_cases he : strTrim v = ""
      · simp [he] at hr
      · rw [if_neg he] at hr
        intro c hc
        have h2 := (mem_tokenize hr).2 c hc
        obtain ⟨c0, _, rfl⟩ := List.mem_map.1 h2
        exact toLower_idem c0
  rw [show ("tri*".data) = ['t', 'r', 'i', '*'] from rfl]
  rw [show ("tri".data) = ['t', 'r', 'i'] from rfl]
  rw [map_toLower_self hlower]
  exact globMatch_tri tok.data

/-- Witness for C5 at a concrete index: "triceratops" is an indexed `name`
term and the glob match agrees with the case-insensitive prefix test. -/
theorem wildcard_tri_matches_prefix_terms_witness :
    ("triceratops" ∈
      (buildIndex srcSchema [[("name", "Triceratops Rex")]]).dict "name")
    ∧ (globMatch "tri*".data "triceratops".data = true ↔
        List.isPrefixOf "tri".data
          ("triceratops".data.map Char.toLower) = true) :=
  ⟨by decide,
   wildcard_tri_matches_prefix_terms [[("name", "Triceratops Rex")]]
     "triceratops" (by decide)⟩

/-- Two records whose `name` terms are at Damerau-Levenshtein distance 2 and
3 from the query value "tricerato". -/
def fuzzyRecs : List Record :=
  [[("name", "Triceratops")], [("name", "Triceratopsx")]]

set_option maxRecDepth 4096 in
/-- CLAIM C6: a fuzzy query matches a document exactly when some indexed term
of the field is within the given Damerau-Levenshtein distance of the (non
empty) query value; "tricerato" is at distance 2 from "triceratops" and at
distance 3 from "triceratopsx", so `Fuzzy(name, "tricerato", 2)` returns
only the former document. -/
theorem fuzzy_matches_within_distance (idx : IndexStore) (f v : String)
    (k : Nat) (d : DocId) :
    (nodeMatches idx (QueryNode.Fuzzy f v k) d = true ↔
      (v ≠ "" ∧ ∃ tok ∈ idx.dict f,
        damerauLevenshtein v tok ≤ k ∧ tfOf idx (f, tok) d ≠ 0))
    ∧ damerauLevenshtein "tricerato" "triceratops" = 2
    ∧ damerauLevenshtein "tricerato" "triceratopsx" = 3
    ∧ (execute (buildIndex srcSchema fuzzyRecs)
        (QueryNode.Fuzzy "name" "tricerato" 2) 10).map Prod.fst = [0] := by
  refine ⟨?_, by decide, by decide, ?_⟩
  · simp [nodeMatches, List.any_eq_true, bne_iff_ne]
  · have hfilter : (List.range (buildIndex srcSchema fuzzyRecs).totalDocs).filter
        (fun d => nodeMatches (buildIndex srcSchema fuzzyRecs)
          (QueryNode.Fuzzy "name" "tricerato" 2) d) = [0] := by
      simp only [nodeMatches]
      decide
    unfold execute
    rw [hfilter]
    simp [List.insertionSort]

/-- Two otherwise-equal records: the first matches "rex" only in `name`, the
second only in `description`. -/
def boostRecs : List Record :=
  [[("name", "rex"), ("description", "big")],
   [("name", "big"), ("description", "rex")]]

/-- CLAIM C4: `MultiField` multiplies each field's sub-score by that field's
boost weight before summing across fields, and with boosts
{name: 5.0, description: 1.0} the document matching only in `name` is ranked
above the otherwise-equal document matching only in `description`. -/
theorem multifield_boost_ranks_name_first :
    (∀ (idx : IndexStore) (fbs : List (FieldName × ℝ)) (text : String)
      (d : DocId),
      nodeScore idx (QueryNode.MultiField fbs text) d =
        (fbs.map (fun fb => fb.2 * ((tokenize text).map
          (fun tok => termScore idx (fb.1, tok) d)).sum)).sum)
    ∧ (execute (buildIndex srcSchema boostRecs)
        (QueryNode.MultiField [("name", 5), ("description", 1)] "rex") 10).map
          Prod.fst = [0, 1] := by
  constructor
  · intro idx fbs text d
    simp [nodeScore]
  · have hs : nodeScore (buildIndex srcSchema boostRecs)
        (QueryNode.MultiField [("name", 5), ("description", 1)] "rex") 1
        < nodeScore (buildIndex srcSchema boostRecs)
        (QueryNode.MultiField [("name", 5), ("description", 1)] "rex") 0 := by
      simp only [nodeScore, termScore]
      rw [show tokenize "rex" = ["rex"] from rfl]
      simp only [List.map_cons, List.map_nil, List.sum_cons, List.sum_nil]
      rw [show tfOf (buildIndex srcSchema boostRecs) ("name", "rex") 0 = 1
        from by decide]
      rw [show tfOf (buildIndex srcSchema boostRecs) ("description", "rex") 0 = 0
        from by decide]
      rw [show tfOf (buildIndex srcSchema boostRecs) ("name", "rex") 1 = 0
        from by decide]
      rw [show tfOf (buildIndex srcSchema boostRecs) ("description", "rex") 1 = 1
        from by decide]
      rw [show dfOf (buildIndex srcSchema boostRecs) ("name", "rex") = 1
        from by decide]
      rw [show dfOf (buildIndex srcSchema boostRecs) ("description", "rex") = 1
        from by decide]
      rw [show (buildIndex srcSchema boostRecs).totalDocs = 2 from by decide]
      have hL := idf_pos 2 1 (by norm_num)
      push_cast
      nlinarith
    have h : resultOrder
        (0, nodeScore (buildIndex srcSchema boostRecs)
          (QueryNode.MultiField [("name", 5), ("description", 1)] "rex") 0)
        (1, nodeScore (buildIndex srcSchema boostRecs)
          (QueryNode.MultiField [("name", 5), ("description", 1)] "rex") 1) :=
      Or.inl hs
    have hfilter : (List.range (buildIndex srcSchema boostRecs).totalDocs).filter
        (fun d => nodeMatches (buildIndex srcSchema boostRecs)
          (QueryNode.MultiField [("name", 5), ("description", 1)] "rex") d)
        = [0, 1] := by
      simp only [nodeMatches]
      decide
    unfold execute
    rw [hfilter]
    simp only [List.map_cons, List.map_nil, List.insertionSort, List.orderedInsert]
    rw [if_pos h]
    simp [List.take]
